import Mathlib

/-!
Verification of the masked-image reduction kernels of the cct SAXS package.

The numerical kernels are shallowly embedded: finite IEEE doubles are
modelled as rationals (`ℚ`), non-finite doubles are modelled by explicit
flags or `Option`, 2D arrays are modelled as functions from indices, and
the tight pixel loops are modelled as folds over the row-major index list.
Transcendental steps (square roots, trigonometry, base-10 logarithms) are
modelled over `ℝ`.
-/

/-- Row-major enumeration of the index pairs of an `M × N` image, as visited
by the nested `for irow … for icol …` loops of the Cython kernels. -/
def idxList (M N : ℕ) : List (ℕ × ℕ) :=
  (List.range (M * N)).map fun k => (k / N, k % N)

/-- The C `<int>` cast applied to a double: truncation toward zero. -/
def cInt (x : ℚ) : ℤ :=
  if x < 0 then -⌊-x⌋ else ⌊x⌋

/-- `MaskingMode` enum of `maskoperations.pyx`: `mm_mask = 0`, `mm_unmask = 1`,
`mm_flip = 2`. -/
inductive MaskingMode where
  | mask
  | unmask
  | flip
deriving DecidableEq

/-- The value written into a selected mask pixel holding `old`, one branch per
mode: `mask → 0`, `unmask → 1`, `flip → (old == 0)`. -/
def applyMode : MaskingMode → ℕ → ℕ
  | .mask, _ => 0
  | .unmask, _ => 1
  | .flip, old => if old = 0 then 1 else 0

/-- Selection predicate of `maskCircle` (maskoperations.pyx lines 18-33): the
pixel lies in the clipped bounding-box iteration range and its squared
distance to the centre is at most `radius²`. -/
def circleSel (R C : ℕ) (centerrow centercol radius : ℚ) (irow icol : ℕ) : Prop :=
  cInt (max 0 (centerrow - radius - 1)) ≤ (irow : ℤ) ∧
  (irow : ℤ) < cInt (min (R : ℚ) (centerrow + radius + 1)) ∧
  cInt (max 0 (centercol - radius - 1)) ≤ (icol : ℤ) ∧
  (icol : ℤ) < cInt (min (C : ℚ) (centercol + radius + 1)) ∧
  ((irow : ℚ) - centerrow) * ((irow : ℚ) - centerrow) +
      ((icol : ℚ) - centercol) * ((icol : ℚ) - centercol) ≤ radius * radius

instance (R C : ℕ) (centerrow centercol radius : ℚ) (irow icol : ℕ) :
    Decidable (circleSel R C centerrow centercol radius irow icol) := by
  unfold circleSel
  infer_instance

/-- `maskCircle` of maskoperations.pyx: every pixel satisfying `circleSel` is
overwritten through `applyMode`; the loop touches each index at most once, so
the in-place update is the pointwise function below. -/
def maskCircle (R C : ℕ) (m : ℕ → ℕ → ℕ) (centerrow centercol radius : ℚ)
    (mode : MaskingMode) : ℕ → ℕ → ℕ :=
  fun irow icol =>
    if circleSel R C centerrow centercol radius irow icol then
      applyMode mode (m irow icol)
    else
      m irow icol

/-- Selection predicate of `maskRectangle` (maskoperations.pyx lines 35-47):
`ceil(fmax(0, rowmin+0.5)) ≤ irow < ceil(fmin(rows, rowmax-0.5))` and the same
for columns; the `<int>` cast of an integral `ceil` value is the identity. -/
def rectSel (R C : ℕ) (rowmin colmin rowmax colmax : ℚ) (irow icol : ℕ) : Prop :=
  ⌈max 0 (rowmin + 1/2)⌉ ≤ (irow : ℤ) ∧
  (irow : ℤ) < ⌈min (R : ℚ) (rowmax - 1/2)⌉ ∧
  ⌈max 0 (colmin + 1/2)⌉ ≤ (icol : ℤ) ∧
  (icol : ℤ) < ⌈min (C : ℚ) (colmax - 1/2)⌉

instance (R C : ℕ) (rowmin colmin rowmax colmax : ℚ) (irow icol : ℕ) :
    Decidable (rectSel R C rowmin colmin rowmax colmax irow icol) := by
  unfold rectSel
  infer_instance

/-- `maskRectangle` of maskoperations.pyx. -/
def maskRectangle (R C : ℕ) (m : ℕ → ℕ → ℕ) (rowmin colmin rowmax colmax : ℚ)
    (mode : MaskingMode) : ℕ → ℕ → ℕ :=
  fun irow icol =>
    if rectSel R C rowmin colmin rowmax colmax irow icol then
      applyMode mode (m irow icol)
    else
      m irow icol

/-- One edge test of the ray-casting loop of `maskPolygon` (maskoperations.pyx
lines 71-84): a non-horizontal edge from `v` to `w` crosses the rightward ray
from pixel `(irow, icol)` when the intersection parameter `t` lies in `[0, 1)`
and the intersection abscissa is at least `icol`. -/
def edgeCrosses (irow icol : ℕ) (v w : ℚ × ℚ) : Prop :=
  v.2 ≠ w.2 ∧
    0 ≤ ((irow : ℚ) - v.2) / (w.2 - v.2) ∧
    ((irow : ℚ) - v.2) / (w.2 - v.2) < 1 ∧
    (icol : ℚ) ≤ v.1 + ((irow : ℚ) - v.2) / (w.2 - v.2) * (w.1 - v.1)

instance (irow icol : ℕ) (v w : ℚ × ℚ) : Decidable (edgeCrosses irow icol v w) := by
  unfold edgeCrosses
  infer_instance

/-- Crossing count of `maskPolygon`: edges run from `vertices[i]` to
`vertices[i+1]` for `i < len - 1` (the polygon must be explicitly closed). -/
def crossingNumber (vertices : List (ℚ × ℚ)) (irow icol : ℕ) : ℕ :=
  (vertices.zip vertices.tail).countP fun vw => decide (edgeCrosses irow icol vw.1 vw.2)

/-- Selection predicate of `maskPolygon` (maskoperations.pyx lines 49-93): the
pixel lies in the clipped vertex bounding box (note the source swaps the
coordinate columns between the box computation and the crossing test) and its
crossing number is odd. An empty vertex list gives `±INFINITY` box bounds and
an empty iteration range. -/
def polygonSel (R C : ℕ) (vertices : List (ℚ × ℚ)) (irow icol : ℕ) : Bool :=
  match (vertices.map Prod.fst).min?, (vertices.map Prod.fst).max?,
      (vertices.map Prod.snd).min?, (vertices.map Prod.snd).max? with
  | some rowmin, some rowmax, some colmin, some colmax =>
      decide (cInt (max 0 rowmin) ≤ (irow : ℤ)) &&
      decide ((irow : ℤ) < cInt (min rowmax (R : ℚ))) &&
      decide (cInt (max 0 colmin) ≤ (icol : ℤ)) &&
      decide ((icol : ℤ) < cInt (min colmax (C : ℚ))) &&
      decide (crossingNumber vertices irow icol % 2 = 1)
  | _, _, _, _ => false

/-- `maskPolygon` of maskoperations.pyx. -/
def maskPolygon (R C : ℕ) (m : ℕ → ℕ → ℕ) (vertices : List (ℚ × ℚ))
    (mode : MaskingMode) : ℕ → ℕ → ℕ :=
  fun irow icol =>
    if polygonSel R C vertices irow icol then
      applyMode mode (m irow icol)
    else
      m irow icol

/-- Accumulator of the `beamweights` pixel loop (beamweighting.pyx lines
15-34 and src/unnamed/part_006 lines 15-42). -/
structure BWAcc where
  meanrow : ℚ
  meanrow2 : ℚ
  meancol : ℚ
  meancol2 : ℚ
  sumimage : ℚ
  maximage : ℚ
  pixelcount : ℕ

/-- One iteration of the `beamweights` loop: pixels with non-positive
intensity or zero mask are skipped (in that order); all others update the
running maximum, the intensity sum and the first and second row/column
moments, each weighted by the intensity. -/
def bwStep (image : ℕ → ℕ → ℚ) (mask : ℕ → ℕ → ℕ) (acc : BWAcc) (p : ℕ × ℕ) : BWAcc :=
  if image p.1 p.2 ≤ 0 then acc
  else if mask p.1 p.2 = 0 then acc
  else
    { meanrow := acc.meanrow + p.1 * image p.1 p.2
      meanrow2 := acc.meanrow2 + p.1 * p.1 * image p.1 p.2
      meancol := acc.meancol + p.2 * image p.1 p.2
      meancol2 := acc.meancol2 + p.2 * p.2 * image p.1 p.2
      sumimage := acc.sumimage + image p.1 p.2
      maximage := if acc.maximage < image p.1 p.2 then image p.1 p.2 else acc.maximage
      pixelcount := acc.pixelcount + 1 }

/-- The C `sqrt` applied to a finite double: NaN (`none`) for a negative
argument, the real square root otherwise. -/
noncomputable def sqrtD (x : ℚ) : Option ℝ :=
  if x < 0 then none else some (Real.sqrt (x : ℝ))

/-- Result record of `beamweights`; `none` models a NaN field. -/
structure BWResult where
  sum : Option ℚ
  max : Option ℚ
  center_row : Option ℚ
  center_col : Option ℚ
  sigma_row : Option ℝ
  sigma_col : Option ℝ
  pixelcount : ℕ

/-- `beamweights` of cct/core2/algorithms/beamweighting.pyx: scans the whole
image accumulating intensity-weighted moments; with zero contributing pixels
every returned statistic is NaN; otherwise the standard deviations are
`sqrt((meanrow2/sumimage - meanrow)/sumimage)` with `meanrow`/`meanrow2` the
raw accumulated first/second moments (the source's literal formula). -/
noncomputable def beamweights (M N : ℕ) (image : ℕ → ℕ → ℚ) (mask : ℕ → ℕ → ℕ) : BWResult :=
  let acc := (idxList M N).foldl (bwStep image mask) ⟨0, 0, 0, 0, 0, image 0 0, 0⟩
  if acc.pixelcount = 0 then ⟨none, none, none, none, none, none, 0⟩
  else
    ⟨some acc.sumimage, some acc.maximage, some (acc.meanrow / acc.sumimage),
      some (acc.meancol / acc.sumimage),
      sqrtD ((acc.meanrow2 / acc.sumimage - acc.meanrow) / acc.sumimage),
      sqrtD ((acc.meancol2 / acc.sumimage - acc.meancol) / acc.sumimage),
      acc.pixelcount⟩

/-- Index pairs of the sub-range `[r0, r1) × [c0, c1)`, row-major. -/
def rangeIdx (r0 r1 c0 c1 : ℕ) : List (ℕ × ℕ) :=
  (List.range' r0 (r1 - r0)).flatMap fun i => (List.range' c0 (c1 - c0)).map fun j => (i, j)

/-- The ranged `beamweights` variant (src/unnamed/part_006): the same loop
restricted to `[rowmin, rowmax) × [colmin, colmax)` (defaults: the full
image); with zero contributing pixels it returns 0 for sum and max and NaN
for the centroid and standard-deviation fields. -/
noncomputable def beamweightsRanged (M N : ℕ) (image : ℕ → ℕ → ℚ) (mask : ℕ → ℕ → ℕ)
    (rowmin rowmax colmin colmax : Option ℕ) : BWResult :=
  let acc := (rangeIdx (rowmin.getD 0) (rowmax.getD M) (colmin.getD 0) (colmax.getD N)).foldl
    (bwStep image mask) ⟨0, 0, 0, 0, 0, image 0 0, 0⟩
  if acc.pixelcount = 0 then ⟨some 0, some 0, none, none, none, none, 0⟩
  else
    ⟨some acc.sumimage, some acc.maximage, some (acc.meanrow / acc.sumimage),
      some (acc.meancol / acc.sumimage),
      sqrtD ((acc.meanrow2 / acc.sumimage - acc.meanrow) / acc.sumimage),
      sqrtD ((acc.meancol2 / acc.sumimage - acc.meancol) / acc.sumimage),
      acc.pixelcount⟩

/-- `ErrorPropagation` enum of radint.pyx: `INDEPENDENT_SAME = 0` (weighted
inverse variance), `AVERAGE = 1` (simple average), `GAUSS = 2` (Gaussian
propagation), `MIXED = 3` (max of empirical and propagated). -/
inductive ErrorPropagation where
  | independentSame
  | average
  | gauss
  | mixed
deriving DecidableEq

/-- Number of points of the automatic abscissa: `sqrt(M*M + N*N)/2` passed as
the `num` argument of numpy `linspace`/`logspace`, which truncates it to an
integer; for naturals `M`, `N` this equals `⌊√(M²+N²)/2⌋` (see
`numPoints_eq_floor`). -/
def numPoints (M N : ℕ) : ℕ :=
  Nat.sqrt (M * M + N * N) / 2

/-- The `qmin`/`qmax` scan of `autoabscissa` (radint.pyx lines 61-82) over
the per-pixel abscissa values `absc` (the kind-dependent geometric formula of
lines 71-78, applied outside this embedding): running minimum and maximum over
unmasked pixels, started from the sentinels `1e20` and `-10`. -/
def absMinMax (M N : ℕ) (mask : ℕ → ℕ → ℕ) (absc : ℕ → ℕ → ℚ) : ℚ × ℚ :=
  (idxList M N).foldl
    (fun mm p =>
      if mask p.1 p.2 = 0 then mm
      else
        ((if absc p.1 p.2 < mm.1 then absc p.1 p.2 else mm.1),
          (if mm.2 < absc p.1 p.2 then absc p.1 p.2 else mm.2)))
    (10 ^ 20, -10)

/-- numpy `linspace a b n` with endpoint: `n` evenly spaced values from `a`
to `b` (a single value `a` when `n = 1`, empty when `n = 0`). -/
def linspace {α : Type _} [DivisionRing α] (a b : α) (n : ℕ) : List α :=
  if n = 0 then []
  else if n = 1 then [a]
  else (List.range n).map fun (i : ℕ) => a + (i : α) * (b - a) / ((n : α) - 1)

/-- The linear branch of `autoabscissa` (radint.pyx line 84):
`np.linspace(qmin, qmax, sqrt(M*M+N*N)/2)`. -/
def autoabscissaLin (M N : ℕ) (mask : ℕ → ℕ → ℕ) (absc : ℕ → ℕ → ℚ) : List ℚ :=
  linspace (absMinMax M N mask absc).1 (absMinMax M N mask absc).2 (numPoints M N)

/-- numpy `logspace a b n`: `10` raised to each element of `linspace a b n`. -/
noncomputable def logspace (a b : ℝ) (n : ℕ) : List ℝ :=
  (linspace a b n).map fun t => (10 : ℝ) ^ t

/-- The log10 branch of `autoabscissa` (radint.pyx line 86):
`np.logspace(log10 qmin, log10 qmax, sqrt(M*M+N*N)/2)`. -/
noncomputable def autoabscissaLog (M N : ℕ) (mask : ℕ → ℕ → ℕ) (absc : ℕ → ℕ → ℚ) : List ℝ :=
  logspace (Real.logb 10 ((absMinMax M N mask absc).1 : ℝ))
    (Real.logb 10 ((absMinMax M N mask absc).2 : ℝ)) (numPoints M N)

/-- One pixel of the radint input after the geometric stage: its mask byte,
finiteness flags and values of the intensity and its error (a non-finite
double never has its value consulted), and the precomputed abscissa value `r`
and abscissa error `dr` (radint.pyx lines 190-210). -/
structure Pixel where
  mask : ℕ
  dataFinite : Bool
  data : ℚ
  errFinite : Bool
  derr : ℚ
  r : ℚ
  dr : ℚ

/-- Upper edge of bin `l` (radint.pyx lines 183-188): the midpoint of edges
`l` and `l+1`, except the last bin whose upper edge is the last edge. -/
def qmaxAt (q : List ℚ) (l : ℕ) : ℚ :=
  if l = q.length - 1 then q.getLastD 0 else (q.getD l 0 + q.getD (l + 1) 0) / 2

/-- The bin search loop (radint.pyx lines 235-238): starting at bin `l` with
`fuel` bins left, return the first bin whose upper edge is at least `r`. -/
def findBinAux (q : List ℚ) (r : ℚ) : ℕ → ℕ → Option ℕ
  | 0, _ => none
  | fuel + 1, l => if r ≤ qmaxAt q l then some l else findBinAux q r fuel (l + 1)

/-- First bin of the edge list `q` whose upper edge dominates `r`. -/
def findBin (q : List ℚ) (r : ℚ) : Option ℕ :=
  findBinAux q r q.length 0

/-- The mutually exclusive classification states a pixel passes through in
the radint pixel loop (radint.pyx lines 212-272). `unbinned` models a fall
through the bin search without a match (shown impossible for a nonempty edge
list in `classify_ne_unbinned`). -/
inductive PixClass where
  | masked
  | invalidData
  | invalidError
  | underflow
  | overflow
  | binned (l : ℕ)
  | unbinned
deriving DecidableEq

/-- Classification of one pixel, in the source's test order: zero mask,
non-finite intensity, non-finite error, abscissa below the first edge,
abscissa above the last edge, and otherwise the first matching bin. -/
def classify (q : List ℚ) (px : Pixel) : PixClass :=
  if px.mask = 0 then .masked
  else if ¬ px.dataFinite then .invalidData
  else if ¬ px.errFinite then .invalidError
  else if px.r < q.headD 0 then .underflow
  else if q.getLastD 0 < px.r then .overflow
  else
    match findBin q px.r with
    | some l => .binned l
    | none => .unbinned

/-- `dataerr_current` (radint.pyx lines 226-228): under mode 0 a non-positive
error is replaced by 1; other modes use the stored error unchanged. -/
def errCurrent (ep : ErrorPropagation) (px : Pixel) : ℚ :=
  if ep = .independentSame ∧ px.derr ≤ 0 then 1 else px.derr

/-- Accumulator state of the radint pixel loop: the five anomaly counters and
the per-bin accumulation arrays (Intensity, Error, Intensity_squared, qout,
dqout, q2, Area of radint.pyx lines 173-189). -/
structure RState where
  countMasked : ℕ
  countInvalidData : ℕ
  countInvalidError : ℕ
  countUnderflow : ℕ
  countOverflow : ℕ
  Intensity : ℕ → ℚ
  Error : ℕ → ℚ
  Isq : ℕ → ℚ
  qout : ℕ → ℚ
  dqout : ℕ → ℚ
  q2 : ℕ → ℚ
  Area : ℕ → ℕ

/-- All-zero initial state. -/
def initState : RState :=
  ⟨0, 0, 0, 0, 0, fun _ => 0, fun _ => 0, fun _ => 0, fun _ => 0, fun _ => 0, fun _ => 0,
    fun _ => 0⟩

/-- Intensity-side accumulation into bin `l` (radint.pyx lines 241-253), one
branch per intensity error-propagation mode; `e` is `dataerr_current`. -/
def accumIntensity (ep : ErrorPropagation) (px : Pixel) (e : ℚ) (st : RState) (l : ℕ) :
    RState :=
  match ep with
  | .mixed =>
      { st with Error := Function.update st.Error l (st.Error l + e * e),
                Intensity := Function.update st.Intensity l (st.Intensity l + px.data),
                Isq := Function.update st.Isq l (st.Isq l + px.data * px.data) }
  | .gauss =>
      { st with Error := Function.update st.Error l (st.Error l + e * e),
                Intensity := Function.update st.Intensity l (st.Intensity l + px.data) }
  | .average =>
      { st with Error := Function.update st.Error l (st.Error l + e),
                Intensity := Function.update st.Intensity l (st.Intensity l + px.data) }
  | .independentSame =>
      { st with Error := Function.update st.Error l (st.Error l + 1 / (e * e)),
                Intensity := Function.update st.Intensity l
                  (st.Intensity l + px.data / (e * e)) }

/-- Abscissa-side accumulation into bin `l` (radint.pyx lines 256-268), one
branch per abscissa error-propagation mode. -/
def accumAbscissa (aep : ErrorPropagation) (px : Pixel) (st : RState) (l : ℕ) : RState :=
  match aep with
  | .mixed =>
      { st with dqout := Function.update st.dqout l (st.dqout l + px.dr * px.dr),
                qout := Function.update st.qout l (st.qout l + px.r),
                q2 := Function.update st.q2 l (st.q2 l + px.r * px.r) }
  | .gauss =>
      { st with dqout := Function.update st.dqout l (st.dqout l + px.dr * px.dr),
                qout := Function.update st.qout l (st.qout l + px.r) }
  | .average =>
      { st with dqout := Function.update st.dqout l (st.dqout l + px.dr),
                qout := Function.update st.qout l (st.qout l + px.r) }
  | .independentSame =>
      { st with dqout := Function.update st.dqout l (st.dqout l + 1 / (px.dr * px.dr)),
                qout := Function.update st.qout l (st.qout l + px.r / (px.dr * px.dr)) }

/-- One iteration of the radint pixel loop: bump the counter of the pixel's
classification state, or accumulate into its bin and bump that bin's area. -/
def radintStep (ep aep : ErrorPropagation) (q : List ℚ) (st : RState) (px : Pixel) :
    RState :=
  match classify q px with
  | .masked => { st with countMasked := st.countMasked + 1 }
  | .invalidData => { st with countInvalidData := st.countInvalidData + 1 }
  | .invalidError => { st with countInvalidError := st.countInvalidError + 1 }
  | .underflow => { st with countUnderflow := st.countUnderflow + 1 }
  | .overflow => { st with countOverflow := st.countOverflow + 1 }
  | .binned l =>
      let st1 := accumIntensity ep px (errCurrent ep px) st l
      let st2 := accumAbscissa aep px st1 l
      { st2 with Area := Function.update st2.Area l (st2.Area l + 1) }
  | .unbinned => st

/-- The full accumulation pass of radint.pyx (lines 212-272) over a pixel
list. -/
def radintAccum (ep aep : ErrorPropagation) (q : List ℚ) (pixels : List Pixel) : RState :=
  pixels.foldl (radintStep ep aep q) initState

/-- The pixels of bin `l`: those the classifier sends to `binned l`. -/
def binnedPixels (q : List ℚ) (pixels : List Pixel) (l : ℕ) : List Pixel :=
  pixels.filter fun px => decide (classify q px = .binned l)

/-- The pixel bookkeeping total: all five anomaly counters plus the areas of
all bins. -/
def totalOf (q : List ℚ) (st : RState) : ℕ :=
  st.countMasked + st.countInvalidData + st.countInvalidError + st.countUnderflow +
    st.countOverflow + ∑ l ∈ Finset.range q.length, st.Area l

/-- Final intensity of bin `l` (radint.pyx lines 302-327): bins with zero
area are skipped; under mode 0 the intensity is divided by the accumulated
weight unless that weight is zero; under every other mode it is divided by
the area. -/
def finalIntensity (ep : ErrorPropagation) (st : RState) (l : ℕ) : ℚ :=
  if st.Area l = 0 then st.Intensity l
  else if ep = .independentSame then
    (if st.Error l = 0 then st.Intensity l else st.Intensity l / st.Error l)
  else st.Intensity l / (st.Area l : ℚ)

/-- Final intensity error of bin `l` (radint.pyx lines 302-325): bins with
zero area or zero accumulated error are skipped, otherwise one branch per
mode; the square roots of the source are `Real.sqrt` here (for `mixed` a
negative empirical radicand, NaN in C, is clamped to 0 by `Real.sqrt`). -/
noncomputable def finalError (ep : ErrorPropagation) (st : RState) (l : ℕ) : ℝ :=
  if st.Area l = 0 then (st.Error l : ℝ)
  else if st.Error l = 0 then (st.Error l : ℝ)
  else
    match ep with
    | .mixed =>
        let rho : ℝ :=
          if 1 < st.Area l then
            Real.sqrt (((st.Isq l - st.Intensity l * st.Intensity l / (st.Area l : ℚ)) /
                ((st.Area l : ℚ) - 1) : ℚ)) / Real.sqrt ((st.Area l : ℝ))
          else 0
        let rprop : ℝ := Real.sqrt ((st.Error l : ℝ)) / (st.Area l : ℝ)
        if rprop < rho then rho else rprop
    | .gauss => Real.sqrt ((st.Error l : ℝ)) / (st.Area l : ℝ)
    | .average => ((st.Error l / ((st.Area l : ℚ)) ^ 2 : ℚ) : ℝ)
    | .independentSame => Real.sqrt (((1 / st.Error l : ℚ) : ℝ))

/-- Final abscissa value of bin `l` (radint.pyx lines 279-300). -/
def finalAbscissa (aep : ErrorPropagation) (st : RState) (l : ℕ) : ℚ :=
  if st.Area l = 0 then st.qout l
  else if aep = .independentSame then st.qout l / st.dqout l
  else st.qout l / (st.Area l : ℚ)

/-- Final abscissa error of bin `l` (radint.pyx lines 279-300); square roots
over `ℝ` as in `finalError`. -/
noncomputable def finalAbscissaError (aep : ErrorPropagation) (st : RState) (l : ℕ) : ℝ :=
  if st.Area l = 0 then (st.dqout l : ℝ)
  else
    match aep with
    | .mixed =>
        let rho : ℝ :=
          if 1 < st.Area l then
            Real.sqrt (((st.q2 l - st.qout l * st.qout l / (st.Area l : ℚ)) /
                ((st.Area l : ℚ) - 1) : ℚ)) / Real.sqrt ((st.Area l : ℝ))
          else 0
        let rprop : ℝ := Real.sqrt ((st.dqout l : ℝ)) / (st.Area l : ℝ)
        if rprop < rho then rho else rprop
    | .gauss => Real.sqrt ((st.dqout l : ℝ)) / (st.Area l : ℝ)
    | .average => ((st.dqout l / ((st.Area l : ℚ)) : ℚ) : ℝ)
    | .independentSame => Real.sqrt (((1 / st.dqout l : ℚ) : ℝ))

/-- A dense 2D array with an explicit shape, as passed to `radint_fullq`. -/
structure DMat (α : Type _) where
  rows : ℕ
  cols : ℕ
  entry : ℕ → ℕ → α

/-- The pixel list of a radint call: the row-major traversal of the (shape
checked) intensity, error, mask and precomputed abscissa arrays. -/
def pixelsOf (data dataerr : DMat (Bool × ℚ)) (mask : DMat ℕ)
    (rmat drmat : ℕ → ℕ → ℚ) : List Pixel :=
  (idxList data.rows data.cols).map fun p =>
    { mask := mask.entry p.1 p.2
      dataFinite := (data.entry p.1 p.2).1
      data := (data.entry p.1 p.2).2
      errFinite := (dataerr.entry p.1 p.2).1
      derr := (dataerr.entry p.1 p.2).2
      r := rmat p.1 p.2
      dr := drmat p.1 p.2 }

/-- `radint_fullq` of radint.pyx (lines 89-333): a missing error matrix
defaults to all ones and a missing mask to all unmasked; the only validation
is the four shape assertions (lines 162-165); a missing edge list defaults to
the automatic abscissa (the linear branch; the log10 branch is
`autoabscissaLog`); then the accumulation pass runs. `none` models the
assertion failure; the geometric abscissa arrays `rmat`/`drmat` (lines
190-210) are inputs here. Normalization per bin is `finalIntensity`,
`finalError`, `finalAbscissa`, `finalAbscissaError` applied to the returned
state. -/
def radint_fullq (data : DMat (Bool × ℚ)) (dataerr : Option (DMat (Bool × ℚ)))
    (mask : Option (DMat ℕ)) (rmat drmat : ℕ → ℕ → ℚ) (q : Option (List ℚ))
    (ep aep : ErrorPropagation) : Option (RState × List ℚ) :=
  let de := dataerr.getD ⟨data.rows, data.cols, fun _ _ => (true, 1)⟩
  let mk := mask.getD ⟨data.rows, data.cols, fun _ _ => 1⟩
  if data.rows = de.rows ∧ data.cols = de.cols ∧ data.rows = mk.rows ∧
      data.cols = mk.cols then
    let qq := q.getD (autoabscissaLin data.rows data.cols mk.entry rmat)
    some (radintAccum ep aep qq (pixelsOf data de mk rmat drmat), qq)
  else
    none

/-- A concrete test pixel: unmasked, finite unit intensity and error,
abscissa 1/2 with unit abscissa error. -/
def samplePixel : Pixel :=
  ⟨1, true, 1, true, 1, 1/2, 1⟩

/-- Forward conversion of a pixel radius `ρ` to momentum transfer, the value
part of the staged transform of radint.pyx lines 196-210 (and the per-pixel
formula of autoabscissa line 72): `q = 4π·sin(atan(ρ·pixelsize/distance)/2)/λ`. -/
noncomputable def pixel_to_q (wavelength distance pixelsize ρ : ℝ) : ℝ :=
  4 * Real.pi * Real.sin (0.5 * Real.arctan (ρ * pixelsize / distance)) / wavelength

/-- Inverse conversion of polar2d.pyx `polar2D_q` (lines 10-21):
`pixel = (distance/pixelsize) · tan(2·asin(q·(λ/4/π)))`. -/
noncomputable def q_to_pixel (wavelength distance pixelsize q : ℝ) : ℝ :=
  (distance / pixelsize) * Real.tan (2 * Real.arcsin (q * (wavelength / 4 / Real.pi)))

/-- C10: every mask-rasterization operation, in every mode, writes only the
byte values 0 or 1 into the pixels it affects (`mask` writes 0, `unmask`
writes 1, `flip` writes 1 exactly when the old value was 0) and leaves every
other pixel unchanged. -/
theorem maskOps_write_only_zero_one :
    ∀ (R C : ℕ) (m : ℕ → ℕ → ℕ) (centerrow centercol radius : ℚ)
      (rowmin colmin rowmax colmax : ℚ) (vertices : List (ℚ × ℚ))
      (mode : MaskingMode) (irow icol : ℕ),
      (applyMode .mask (m irow icol) = 0 ∧ applyMode .unmask (m irow icol) = 1 ∧
        (applyMode .flip (m irow icol) = 1 ↔ m irow icol = 0)) ∧
      (applyMode mode (m irow icol) = 0 ∨ applyMode mode (m irow icol) = 1) ∧
      (maskCircle R C m centerrow centercol radius mode irow icol = m irow icol ∨
        maskCircle R C m centerrow centercol radius mode irow icol
          = applyMode mode (m irow icol)) ∧
      (maskRectangle R C m rowmin colmin rowmax colmax mode irow icol = m irow icol ∨
        maskRectangle R C m rowmin colmin rowmax colmax mode irow icol
          = applyMode mode (m irow icol)) ∧
      (maskPolygon R C m vertices mode irow icol = m irow icol ∨
        maskPolygon R C m vertices mode irow icol = applyMode mode (m irow icol)) := by
  intro R C m cr cc rad rmin cmin rmax cmax vs mode irow icol
  refine ⟨⟨rfl, rfl, ?_⟩, ?_, ?_, ?_, ?_⟩
  · simp only [applyMode]
    constructor
    · intro h
      by_contra hne
      simp [hne] at h
    · intro h
      simp [h]
  · cases mode with
    | mask => exact Or.inl rfl
    | unmask => exact Or.inr rfl
    | flip =>
      simp only [applyMode]
      by_cases h : m irow icol = 0 <;> simp [h]
  · unfold maskCircle
    by_cases h : circleSel R C cr cc rad irow icol <;> simp [h]
  · unfold maskRectangle
    by_cases h : rectSel R C rmin cmin rmax cmax irow icol <;> simp [h]
  · unfold maskPolygon
    by_cases h : polygonSel R C vs irow icol <;> simp [h]

/-- C7 counterexample: on a 1×1 mask holding the byte value 2, applying
`maskCircle` in Flip mode twice with identical parameters yields 1 at the
(covered) pixel, not the original value 2 — the double flip is not the
identity on arbitrary byte masks. -/
theorem maskCircle_flip_flip_not_id_on_bytes :
    maskCircle 1 1 (maskCircle 1 1 (fun _ _ => 2) 0 0 1 .flip) 0 0 1 .flip 0 0 = 1 ∧
      (1 : ℕ) ≠ 2 := by
  constructor
  · simp [maskCircle, circleSel, cInt, applyMode]
    norm_num
  · decide

/-- C7 (amended): on masks whose entries are all 0 or 1 — the values the
rasterization operations themselves produce — applying `maskCircle` in Flip
mode twice with identical parameters restores the mask at every pixel. -/
theorem maskCircle_flip_flip_id (R C : ℕ) (m : ℕ → ℕ → ℕ)
    (centerrow centercol radius : ℚ)
    (h01 : ∀ irow icol, m irow icol = 0 ∨ m irow icol = 1) :
    ∀ irow icol,
      maskCircle R C (maskCircle R C m centerrow centercol radius .flip)
        centerrow centercol radius .flip irow icol = m irow icol := by
  intro irow icol
  unfold maskCircle
  by_cases hsel : circleSel R C centerrow centercol radius irow icol
  · simp only [hsel, if_true, applyMode]
    rcases h01 irow icol with h | h <;> simp [h]
  · simp [hsel]

/-- C7 witness: a concrete instance of the double-flip identity on an
all-ones 2×2 mask. -/
theorem maskCircle_flip_flip_id_witness :
    maskCircle 2 2 (maskCircle 2 2 (fun _ _ => 1) 0 0 1 .flip) 0 0 1 .flip 0 0 = 1 :=
  maskCircle_flip_flip_id 2 2 (fun _ _ => 1) 0 0 1 (fun _ _ => Or.inr rfl) 0 0

/-- The rectangle selection unravelled: the ceil-based iteration bounds select
exactly the pixels whose centre is at least half a pixel inside each edge. -/
theorem rectSel_iff (R C : ℕ) (rowmin colmin rowmax colmax : ℚ) (irow icol : ℕ) :
    rectSel R C rowmin colmin rowmax colmax irow icol ↔
      (rowmin + 1/2 ≤ (irow : ℚ) ∧ (irow : ℚ) < rowmax - 1/2 ∧ irow < R ∧
        colmin + 1/2 ≤ (icol : ℚ) ∧ (icol : ℚ) < colmax - 1/2 ∧ icol < C) := by
  unfold rectSel
  rw [Int.ceil_le, Int.lt_ceil, Int.ceil_le, Int.lt_ceil]
  push_cast
  constructor
  · rintro ⟨h1, h2, h3, h4⟩
    rw [max_le_iff] at h1 h3
    rw [lt_min_iff] at h2 h4
    exact ⟨h1.2, h2.2, by exact_mod_cast h2.1, h3.2, h4.2, by exact_mod_cast h4.1⟩
  · rintro ⟨h1, h2, h3, h4, h5, h6⟩
    exact ⟨max_le (by positivity) h1, lt_min (by exact_mod_cast h3) h2,
      max_le (by positivity) h4, lt_min (by exact_mod_cast h6) h5⟩

/-- C6 counterexample: `maskRectangle` on a 5×5 all-ones mask with
`rowMin = colMin = 1`, `rowMax = colMax = 4` in Mask mode leaves pixel (1,1)
unchanged (value 1), whereas the claim says exactly rows {1,2} × cols {1,2}
are zeroed; moreover pixel (1,1) with centre strictly inside the open
rectangle (0.6, 4) × (0.6, 4) is not selected, refuting the claimed
"affected iff centre inside the open rectangle" rule. -/
theorem maskRectangle_5x5_claim_false :
    maskRectangle 5 5 (fun _ _ => 1) 1 1 4 4 .mask 1 1 = 1 ∧ (1 : ℕ) ≠ 0 ∧
      ¬ rectSel 5 5 (3/5) (3/5) 4 4 1 1 ∧
      ((3 : ℚ)/5 < 1 ∧ (1 : ℚ) < 4) := by
  refine ⟨?_, by decide, ?_, by norm_num⟩
  · simp only [maskRectangle, rectSel_iff]
    norm_num
  · rw [rectSel_iff]
    norm_num

/-- C6 (amended): on the 5×5 test, `maskRectangle (1,1,4,4)` in Mask mode
zeroes exactly the four pixels rows {2,3} × cols {2,3}; in general a pixel is
selected iff its centre is at least half a pixel inside every rectangle edge
(`rowMin + ½ ≤ row < rowMax − ½`, likewise for columns) and inside the image
bounds. -/
theorem maskRectangle_selection_characterization :
    (∀ i j : Fin 5,
      maskRectangle 5 5 (fun _ _ => 1) 1 1 4 4 .mask i.val j.val
        = if (i.val = 2 ∨ i.val = 3) ∧ (j.val = 2 ∨ j.val = 3) then 0 else 1) ∧
    (∀ (R C : ℕ) (rowmin colmin rowmax colmax : ℚ) (irow icol : ℕ),
      rectSel R C rowmin colmin rowmax colmax irow icol ↔
        (rowmin + 1/2 ≤ (irow : ℚ) ∧ (irow : ℚ) < rowmax - 1/2 ∧ irow < R ∧
          colmin + 1/2 ≤ (icol : ℚ) ∧ (icol : ℚ) < colmax - 1/2 ∧ icol < C)) := by
  constructor
  · intro i j
    fin_cases i <;> fin_cases j <;>
      · simp only [maskRectangle, rectSel_iff, applyMode]
        norm_num
  · exact rectSel_iff

/-- Folding the `beamweights` loop over pixels that all fail the validity
filter leaves the accumulator unchanged. -/
theorem bwFold_of_no_valid (image : ℕ → ℕ → ℚ) (mask : ℕ → ℕ → ℕ)
    (h : ∀ i j, ¬ (0 < image i j ∧ mask i j ≠ 0)) :
    ∀ (l : List (ℕ × ℕ)) (acc : BWAcc), l.foldl (bwStep image mask) acc = acc := by
  intro l
  induction l with
  | nil => intro acc; rfl
  | cons p t ih =>
    intro acc
    rw [List.foldl_cons]
    have hstep : bwStep image mask acc p = acc := by
      unfold bwStep
      by_cases h1 : image p.1 p.2 ≤ 0
      · simp [h1]
      · have h2 : mask p.1 p.2 = 0 := by
          by_contra h2
          exact h p.1 p.2 ⟨lt_of_not_le h1, h2⟩
        simp [h1, h2]
    rw [hstep]
    exact ih acc

/-- C9 counterexample: the cct/core2 `beamweights` on a 1×1 image whose only
pixel has a non-positive value returns NaN — not 0 — for the sum field (and
for the maximum), contradicting the claimed zero-count sum. -/
theorem beamweights_zero_count_sum_is_nan :
    (beamweights 1 1 (fun _ _ => -1) (fun _ _ => 1)).sum = none ∧
      (none : Option ℚ) ≠ some 0 := by
  constructor
  · have hfold := bwFold_of_no_valid (fun _ _ => (-1 : ℚ)) (fun _ _ => 1)
      (fun i j hc => absurd hc.1 (by norm_num)) (idxList 1 1)
      ⟨0, 0, 0, 0, 0, -1, 0⟩
    simp only [beamweights, hfold]
    rfl
  · simp

/-- C9 (amended): on an image with no pixel passing the validity filter
(positive value and nonzero mask), the ranged `beamweights` (src/unnamed/
part_006) returns, without error, count 0, sum 0, max 0 and NaN for the
centroid and standard-deviation fields; the cct/core2 variant returns NaN
for the sum and max fields as well. -/
theorem beamweights_zero_count (M N : ℕ) (image : ℕ → ℕ → ℚ) (mask : ℕ → ℕ → ℕ)
    (h : ∀ i j, ¬ (0 < image i j ∧ mask i j ≠ 0)) :
    beamweightsRanged M N image mask none none none none
        = ⟨some 0, some 0, none, none, none, none, 0⟩ ∧
      beamweights M N image mask = ⟨none, none, none, none, none, none, 0⟩ := by
  constructor
  · simp only [beamweightsRanged, bwFold_of_no_valid image mask h]
    rfl
  · simp only [beamweights, bwFold_of_no_valid image mask h]
    rfl

/-- C9 witness: the zero-count result on a concrete 1×1 all-non-positive
image. -/
theorem beamweights_zero_count_witness :
    beamweightsRanged 1 1 (fun _ _ => -1) (fun _ _ => 1) none none none none
      = ⟨some 0, some 0, none, none, none, none, 0⟩ :=
  (beamweights_zero_count 1 1 (fun _ _ => -1) (fun _ _ => 1)
    (fun i j hc => absurd hc.1 (by norm_num))).1

/-- C8 (code bug): on the 1×2 image [[1, 1]], fully unmasked, `beamweights`
computes the column standard deviation as
`sqrt((meancol2/sum - meancol)/sum) = sqrt((1/2 - 1)/2)`, a negative radicand
giving NaN, because the source subtracts the raw first moment instead of the
squared mean; the statistically correct contract of the spec gives
`sqrt(max 0, meanCol2/sum - meanCol²)) = sqrt(1/2 - 1/4) = 1/2`. -/
theorem beamweights_sigma_bug :
    (beamweights 1 2 (fun _ _ => 1) (fun _ _ => 1)).sigma_col = none ∧
      Real.sqrt (max 0 ((1 : ℝ)/2 - (1/2)^2)) = 1/2 ∧ ((1 : ℝ)/2) ≠ 0 := by
  refine ⟨?_, ?_, by norm_num⟩
  · have e : idxList 1 2 = [(0, 0), (0, 1)] := rfl
    simp only [beamweights, e, List.foldl_cons, List.foldl_nil]
    norm_num [bwStep, sqrtD]
  · rw [show max 0 ((1 : ℝ)/2 - (1/2)^2) = (1/2)^2 by norm_num]
    exact Real.sqrt_sq (by norm_num)

@[simp]
theorem accumIntensity_Area (ep : ErrorPropagation) (px : Pixel) (e : ℚ) (st : RState)
    (l : ℕ) : (accumIntensity ep px e st l).Area = st.Area := by
  cases ep <;> rfl

@[simp]
theorem accumIntensity_counters (ep : ErrorPropagation) (px : Pixel) (e : ℚ) (st : RState)
    (l : ℕ) :
    (accumIntensity ep px e st l).countMasked = st.countMasked ∧
      (accumIntensity ep px e st l).countInvalidData = st.countInvalidData ∧
      (accumIntensity ep px e st l).countInvalidError = st.countInvalidError ∧
      (accumIntensity ep px e st l).countUnderflow = st.countUnderflow ∧
      (accumIntensity ep px e st l).countOverflow = st.countOverflow := by
  cases ep <;> exact ⟨rfl, rfl, rfl, rfl, rfl⟩

@[simp]
theorem accumAbscissa_Area (aep : ErrorPropagation) (px : Pixel) (st : RState) (l : ℕ) :
    (accumAbscissa aep px st l).Area = st.Area := by
  cases aep <;> rfl

@[simp]
theorem accumAbscissa_counters (aep : ErrorPropagation) (px : Pixel) (st : RState) (l : ℕ) :
    (accumAbscissa aep px st l).countMasked = st.countMasked ∧
      (accumAbscissa aep px st l).countInvalidData = st.countInvalidData ∧
      (accumAbscissa aep px st l).countInvalidError = st.countInvalidError ∧
      (accumAbscissa aep px st l).countUnderflow = st.countUnderflow ∧
      (accumAbscissa aep px st l).countOverflow = st.countOverflow := by
  cases aep <;> exact ⟨rfl, rfl, rfl, rfl, rfl⟩

@[simp]
theorem accumAbscissa_Intensity (aep : ErrorPropagation) (px : Pixel) (st : RState)
    (l : ℕ) : (accumAbscissa aep px st l).Intensity = st.Intensity := by
  cases aep <;> rfl

@[simp]
theorem accumAbscissa_Error (aep : ErrorPropagation) (px : Pixel) (st : RState) (l : ℕ) :
    (accumAbscissa aep px st l).Error = st.Error := by
  cases aep <;> rfl

/-- The bin search returns the first match: any result lies in the searched
window, satisfies the bound, and every earlier bin fails it. -/
theorem findBinAux_eq_some (q : List ℚ) (r : ℚ) :
    ∀ (fuel l j : ℕ), findBinAux q r fuel l = some j →
      l ≤ j ∧ j < l + fuel ∧ r ≤ qmaxAt q j ∧ ∀ k, l ≤ k → k < j → qmaxAt q k < r := by
  intro fuel
  induction fuel with
  | zero =>
    intro l j h
    simp [findBinAux] at h
  | succ f ih =>
    intro l j h
    simp only [findBinAux] at h
    by_cases hc : r ≤ qmaxAt q l
    · rw [if_pos hc] at h
      obtain rfl : l = j := by simpa using h
      exact ⟨le_refl _, by omega, hc, fun k hk1 hk2 => by omega⟩
    · rw [if_neg hc] at h
      obtain ⟨h1, h2, h3, h4⟩ := ih (l + 1) j h
      refine ⟨by omega, by omega, h3, ?_⟩
      intro k hk1 hk2
      rcases eq_or_lt_of_le hk1 with rfl | hlt
      · exact lt_of_not_le hc
      · exact h4 k (by omega) hk2

/-- The bin search succeeds as soon as the last searched bin satisfies the
bound. -/
theorem findBinAux_isSome (q : List ℚ) (r : ℚ) :
    ∀ (fuel l : ℕ), 0 < fuel → r ≤ qmaxAt q (l + fuel - 1) →
      (findBinAux q r fuel l).isSome := by
  intro fuel
  induction fuel with
  | zero => intro l h; omega
  | succ f ih =>
    intro l _ hlast
    simp only [findBinAux]
    by_cases hc : r ≤ qmaxAt q l
    · rw [if_pos hc]; rfl
    · rw [if_neg hc]
      rcases Nat.eq_zero_or_pos f with rfl | hf
      · exact absurd (by simpa using hlast) hc
      · exact ih (l + 1) hf (by
          have : l + 1 + f - 1 = l + (f + 1) - 1 := by omega
          rw [this]
          exact hlast)

/-- A binned pixel goes to a bin index below the edge count, its abscissa is
dominated by that bin's upper edge, and every earlier bin's upper edge is
strictly below the abscissa (first match wins). -/
theorem classify_binned_first (q : List ℚ) (px : Pixel) (l : ℕ)
    (h : classify q px = .binned l) :
    l < q.length ∧ px.r ≤ qmaxAt q l ∧ ∀ k, k < l → qmaxAt q k < px.r := by
  unfold classify at h
  split_ifs at h
  rcases hfb : findBin q px.r with _ | j
  · rw [hfb] at h
    cases h
  · rw [hfb] at h
    have hjl : j = l := by simpa using h
    subst hjl
    obtain ⟨_, h2, h3, h4⟩ := findBinAux_eq_some q px.r q.length 0 j hfb
    exact ⟨by omega, h3, fun k hk => h4 k (by omega) hk⟩

/-- The upper edge of the last bin is the last abscissa edge. -/
theorem qmaxAt_last (q : List ℚ) : qmaxAt q (q.length - 1) = q.getLastD 0 := by
  simp [qmaxAt]

/-- With at least one abscissa edge, no pixel falls through the bin search:
classification always lands in one of the six counted states. -/
theorem classify_ne_unbinned (q : List ℚ) (px : Pixel) (hq : 1 ≤ q.length) :
    classify q px ≠ .unbinned := by
  unfold classify
  split_ifs with h1 h2 h3 h4 h5
  all_goals try simp
  rcases hfb : findBin q px.r with _ | j
  · exfalso
    have hsome := findBinAux_isSome q px.r q.length 0 (by omega)
      (by
        have h0 : 0 + q.length - 1 = q.length - 1 := by omega
        rw [h0, qmaxAt_last]
        exact le_of_not_lt h5)
    rw [findBin] at hfb
    rw [hfb] at hsome
    simp at hsome
  · simp [hfb]

/-- Each processed pixel adds exactly one to the bookkeeping total: its own
counter, or the area of the single bin it is accumulated into. -/
theorem totalOf_radintStep (ep aep : ErrorPropagation) (q : List ℚ) (st : RState)
    (px : Pixel) (hq : 1 ≤ q.length) :
    totalOf q (radintStep ep aep q st px) = totalOf q st + 1 := by
  unfold radintStep
  cases hcl : classify q px with
  | masked => simp only [totalOf]; omega
  | invalidData => simp only [totalOf]; omega
  | invalidError => simp only [totalOf]; omega
  | underflow => simp only [totalOf]; omega
  | overflow => simp only [totalOf]; omega
  | unbinned => exact absurd hcl (classify_ne_unbinned q px hq)
  | binned l =>
    have hl := (classify_binned_first q px l hcl).1
    simp only [totalOf, accumAbscissa_Area, accumIntensity_Area,
      accumAbscissa_counters, accumIntensity_counters]
    have hsum :
        ∑ x ∈ Finset.range q.length,
            Function.update st.Area l (st.Area l + 1) x
          = (∑ x ∈ Finset.range q.length, st.Area x) + 1 := by
      rw [Finset.sum_update_of_mem (Finset.mem_range.mpr hl)]
      rw [← Finset.add_sum_erase _ st.Area (Finset.mem_range.mpr hl),
        Finset.sdiff_singleton_eq_erase]
      omega
    rw [hsum]
    have hc := accumAbscissa_counters aep px (accumIntensity ep px (errCurrent ep px) st l) l
    have hc2 := accumIntensity_counters ep px (errCurrent ep px) st l
    omega

/-- The bookkeeping total of the whole accumulation pass equals the number of
pixels processed. -/
theorem totalOf_radintAccum (ep aep : ErrorPropagation) (q : List ℚ)
    (pixels : List Pixel) (hq : 1 ≤ q.length) :
    totalOf q (radintAccum ep aep q pixels) = pixels.length := by
  suffices h : ∀ st, totalOf q (pixels.foldl (radintStep ep aep q) st)
      = totalOf q st + pixels.length by
    have h0 := h initState
    unfold radintAccum
    rw [h0]
    simp [totalOf, initState]
  induction pixels with
  | nil => intro st; simp
  | cons p t ih =>
    intro st
    rw [List.foldl_cons, ih, totalOf_radintStep ep aep q st p hq, List.length_cons]
    omega

/-- C1: with a nonempty ascending edge list and intensity error propagation
mode 0 (weighted inverse variance) or 2 (Gaussian), every pixel of an `M × N`
image is classified into exactly one of masked / invalid intensity / invalid
error / underflow / overflow / a single bin — the first bin, in ascending
scan, whose upper edge (midpoint of consecutive edges, except the last bin
closed by the last edge) dominates the pixel's abscissa — and the per-bin
areas plus the five anomaly counters sum to `M * N`. -/
theorem radint_partition_conservation (M N : ℕ) (img : ℕ → ℕ → Pixel) (q : List ℚ)
    (ep aep : ErrorPropagation) (hq : 1 ≤ q.length) (_hasc : q.Chain' (· ≤ ·))
    (_hep : ep = .independentSame ∨ ep = .gauss) :
    (∀ px l, classify q px = .binned l →
      l < q.length ∧ px.r ≤ qmaxAt q l ∧ ∀ k, k < l → qmaxAt q k < px.r) ∧
    (∀ px, classify q px ≠ .unbinned) ∧
    ((radintAccum ep aep q ((idxList M N).map fun p => img p.1 p.2)).countMasked +
        (radintAccum ep aep q ((idxList M N).map fun p => img p.1 p.2)).countInvalidData +
        (radintAccum ep aep q ((idxList M N).map fun p => img p.1 p.2)).countInvalidError +
        (radintAccum ep aep q ((idxList M N).map fun p => img p.1 p.2)).countUnderflow +
        (radintAccum ep aep q ((idxList M N).map fun p => img p.1 p.2)).countOverflow +
        ∑ l ∈ Finset.range q.length,
          (radintAccum ep aep q ((idxList M N).map fun p => img p.1 p.2)).Area l
      = M * N) := by
  refine ⟨fun px l h => classify_binned_first q px l h,
    fun px => classify_ne_unbinned q px hq, ?_⟩
  have h := totalOf_radintAccum ep aep q ((idxList M N).map fun p => img p.1 p.2) hq
  unfold totalOf at h
  rw [h]
  simp [idxList]

/-- C1 witness: the partition/conservation equation on a concrete 1×1 image
with edges [0, 1] under Gaussian propagation. -/
theorem radint_partition_conservation_witness :
    (radintAccum .gauss .gauss [0, 1]
          ((idxList 1 1).map fun p => (fun _ _ => samplePixel) p.1 p.2)).countMasked +
        (radintAccum .gauss .gauss [0, 1]
          ((idxList 1 1).map fun p => (fun _ _ => samplePixel) p.1 p.2)).countInvalidData +
        (radintAccum .gauss .gauss [0, 1]
          ((idxList 1 1).map fun p => (fun _ _ => samplePixel) p.1 p.2)).countInvalidError +
        (radintAccum .gauss .gauss [0, 1]
          ((idxList 1 1).map fun p => (fun _ _ => samplePixel) p.1 p.2)).countUnderflow +
        (radintAccum .gauss .gauss [0, 1]
          ((idxList 1 1).map fun p => (fun _ _ => samplePixel) p.1 p.2)).countOverflow +
        ∑ l ∈ Finset.range ([0, 1] : List ℚ).length,
          (radintAccum .gauss .gauss [0, 1]
            ((idxList 1 1).map fun p => (fun _ _ => samplePixel) p.1 p.2)).Area l
      = 1 * 1 :=
  (radint_partition_conservation 1 1 (fun _ _ => samplePixel) [0, 1] .gauss .gauss
    (by simp) (by norm_num [List.chain'_cons]) (Or.inr rfl)).2.2

/-- The average-mode step adds the pixel's intensity to its bin and nothing
to other bins. -/
theorem radintStep_average_Intensity (aep : ErrorPropagation) (q : List ℚ) (st : RState)
    (px : Pixel) (l : ℕ) :
    (radintStep .average aep q st px).Intensity l
      = st.Intensity l + (if classify q px = .binned l then px.data else 0) := by
  cases hc : classify q px with
  | binned j =>
    by_cases hl : j = l
    · subst hl
      simp [radintStep, hc, accumIntensity, Function.update_apply]
    · simp [radintStep, hc, accumIntensity, Function.update_apply, Ne.symm hl, hl]
  | masked => simp [radintStep, hc]
  | invalidData => simp [radintStep, hc]
  | invalidError => simp [radintStep, hc]
  | underflow => simp [radintStep, hc]
  | overflow => simp [radintStep, hc]
  | unbinned => simp [radintStep, hc]

/-- The average-mode step adds the pixel's raw error to its bin's error
accumulator (mode 1 never substitutes the error value). -/
theorem radintStep_average_Error (aep : ErrorPropagation) (q : List ℚ) (st : RState)
    (px : Pixel) (l : ℕ) :
    (radintStep .average aep q st px).Error l
      = st.Error l + (if classify q px = .binned l then px.derr else 0) := by
  cases hc : classify q px with
  | binned j =>
    by_cases hl : j = l
    · subst hl
      simp [radintStep, hc, accumIntensity, errCurrent, Function.update_apply]
    · simp [radintStep, hc, accumIntensity, errCurrent, Function.update_apply,
        Ne.symm hl, hl]
  | masked => simp [radintStep, hc]
  | invalidData => simp [radintStep, hc]
  | invalidError => simp [radintStep, hc]
  | underflow => simp [radintStep, hc]
  | overflow => simp [radintStep, hc]
  | unbinned => simp [radintStep, hc]

/-- Under every mode, the step adds one to the area of the pixel's bin and
nothing to other bins. -/
theorem radintStep_Area (ep aep : ErrorPropagation) (q : List ℚ) (st : RState)
    (px : Pixel) (l : ℕ) :
    (radintStep ep aep q st px).Area l
      = st.Area l + (if classify q px = .binned l then 1 else 0) := by
  cases hc : classify q px with
  | binned j =>
    by_cases hl : j = l
    · subst hl
      simp [radintStep, hc, Function.update_apply]
    · simp [radintStep, hc, Function.update_apply, Ne.symm hl, hl]
  | masked => simp [radintStep, hc]
  | invalidData => simp [radintStep, hc]
  | invalidError => simp [radintStep, hc]
  | underflow => simp [radintStep, hc]
  | overflow => simp [radintStep, hc]
  | unbinned => simp [radintStep, hc]

/-- Under SimpleAverage (mode 1) the accumulated per-bin quantities are the
plain sums of the binned pixels' intensities and errors, and the area is
their count. -/
theorem radintAccum_average_fields (aep : ErrorPropagation) (q : List ℚ)
    (pixels : List Pixel) (l : ℕ) :
    (radintAccum .average aep q pixels).Intensity l
        = ((binnedPixels q pixels l).map Pixel.data).sum ∧
      (radintAccum .average aep q pixels).Error l
        = ((binnedPixels q pixels l).map Pixel.derr).sum ∧
      (radintAccum .average aep q pixels).Area l = (binnedPixels q pixels l).length := by
  suffices h : ∀ st : RState,
      ((pixels.foldl (radintStep .average aep q) st).Intensity l
          = st.Intensity l + ((binnedPixels q pixels l).map Pixel.data).sum) ∧
        ((pixels.foldl (radintStep .average aep q) st).Error l
          = st.Error l + ((binnedPixels q pixels l).map Pixel.derr).sum) ∧
        ((pixels.foldl (radintStep .average aep q) st).Area l
          = st.Area l + (binnedPixels q pixels l).length) by
    have h0 := h initState
    unfold radintAccum
    simpa [initState] using h0
  induction pixels with
  | nil => intro st; simp [binnedPixels]
  | cons p t ih =>
    intro st
    rw [List.foldl_cons]
    obtain ⟨ih1, ih2, ih3⟩ := ih (radintStep .average aep q st p)
    refine ⟨?_, ?_, ?_⟩
    · rw [ih1, radintStep_average_Intensity]
      by_cases hc : classify q p = .binned l <;>
        simp [binnedPixels, List.filter_cons, hc, add_assoc]
    · rw [ih2, radintStep_average_Error]
      by_cases hc : classify q p = .binned l <;>
        simp [binnedPixels, List.filter_cons, hc, add_assoc]
    · rw [ih3, radintStep_Area]
      by_cases hc : classify q p = .binned l <;>
        simp [binnedPixels, List.filter_cons, hc, add_assoc] <;>
        omega

/-- The concrete test pixel lands in bin 0 of the edge list [0, 1]: its
abscissa 1/2 equals the first bin's upper edge (the midpoint of 0 and 1). -/
theorem classify_samplePixel : classify [0, 1] samplePixel = .binned 0 := by
  have hq0 : qmaxAt [0, 1] 0 = 1/2 := by
    unfold qmaxAt
    norm_num [List.getD_cons_zero, List.getD_cons_succ]
  have hfb : findBin [0, 1] (1/2 : ℚ) = some 0 := by
    have h2 : findBin [0, 1] (1/2 : ℚ) = findBinAux [0, 1] (1/2) 2 0 := rfl
    rw [h2]
    unfold findBinAux
    rw [if_pos (by rw [hq0])]
  unfold classify
  rw [if_neg (by norm_num [samplePixel]), if_neg (by norm_num [samplePixel]),
    if_neg (by norm_num [samplePixel]), if_neg (by norm_num [samplePixel]),
    if_neg (by norm_num [samplePixel])]
  have : samplePixel.r = (1/2 : ℚ) := rfl
  rw [this, hfb]

/-- C2 counterexample: two identical pixels with unit error fall into bin 0
of the edges [0, 1]; under SimpleAverage the code reports intensity error
`Σσ/count² = 2/4 = 1/2`, while the claim's `Σσ/count = 2/2 = 1` differs. -/
theorem radint_simpleaverage_claim_false :
    finalError .average (radintAccum .average .gauss [0, 1] [samplePixel, samplePixel]) 0
        = 1/2 ∧ ((1 : ℝ)/2) ≠ (1 + 1)/2 := by
  obtain ⟨h1, h2, h3⟩ :=
    radintAccum_average_fields .gauss [0, 1] [samplePixel, samplePixel] 0
  have hbp : binnedPixels [0, 1] [samplePixel, samplePixel] 0
      = [samplePixel, samplePixel] := by
    simp [binnedPixels, List.filter_cons, classify_samplePixel]
  rw [hbp] at h2 h3
  constructor
  · unfold finalError
    rw [if_neg (by rw [h3]; simp), if_neg (by rw [h2]; norm_num [samplePixel])]
    rw [h2, h3]
    norm_num [samplePixel]
  · norm_num

/-- C2 (amended): under SimpleAverage, every bin with a positive pixel count
reports final intensity `ΣI/count` and final intensity error `Σσ/count²`
(the source divides the summed per-pixel errors by the squared area, not by
the area). -/
theorem radint_simpleaverage_normalization (aep : ErrorPropagation) (q : List ℚ)
    (pixels : List Pixel) (l : ℕ)
    (hA : 0 < (radintAccum .average aep q pixels).Area l) :
    finalIntensity .average (radintAccum .average aep q pixels) l
        = ((binnedPixels q pixels l).map Pixel.data).sum
            / ((binnedPixels q pixels l).length : ℚ) ∧
      finalError .average (radintAccum .average aep q pixels) l
        = (((binnedPixels q pixels l).map Pixel.derr).sum : ℝ)
            / ((binnedPixels q pixels l).length : ℝ) ^ 2 := by
  obtain ⟨h1, h2, h3⟩ := radintAccum_average_fields aep q pixels l
  constructor
  · unfold finalIntensity
    rw [if_neg (by omega), if_neg (by simp)]
    rw [h1, h3]
  · by_cases hE : (radintAccum .average aep q pixels).Error l = 0
    · have hL : finalError .average (radintAccum .average aep q pixels) l
          = (((radintAccum .average aep q pixels).Error l : ℚ) : ℝ) := by
        unfold finalError
        rw [if_neg (by omega), if_pos hE]
      rw [hL, hE]
      rw [hE] at h2
      rw [← h2]
      simp
    · have hL : finalError .average (radintAccum .average aep q pixels) l
          = (((radintAccum .average aep q pixels).Error l
              / (((radintAccum .average aep q pixels).Area l : ℚ)) ^ 2 : ℚ) : ℝ) := by
        unfold finalError
        rw [if_neg (by omega), if_neg hE]
      rw [hL, h2, h3]
      push_cast
      ring

/-- C2 witness: the SimpleAverage normalization on a concrete two-pixel bin. -/
theorem radint_simpleaverage_normalization_witness :
    finalIntensity .average
          (radintAccum .average .gauss [0, 1] [samplePixel, samplePixel]) 0
        = ((binnedPixels [0, 1] [samplePixel, samplePixel] 0).map Pixel.data).sum
            / ((binnedPixels [0, 1] [samplePixel, samplePixel] 0).length : ℚ) ∧
      finalError .average
          (radintAccum .average .gauss [0, 1] [samplePixel, samplePixel]) 0
        = (((binnedPixels [0, 1] [samplePixel, samplePixel] 0).map Pixel.derr).sum : ℝ)
            / ((binnedPixels [0, 1] [samplePixel, samplePixel] 0).length : ℝ) ^ 2 :=
  radint_simpleaverage_normalization .gauss [0, 1] [samplePixel, samplePixel] 0
    (by
      obtain ⟨_, _, h3⟩ :=
        radintAccum_average_fields .gauss [0, 1] [samplePixel, samplePixel] 0
      rw [h3]
      simp [binnedPixels, List.filter_cons, classify_samplePixel])

/-- C4 counterexample: `radint_fullq` on shape-consistent 1×1 input with the
explicitly non-ascending edge list [1, 0] returns a result instead of
rejecting the input. -/
theorem radint_fullq_accepts_nonascending :
    (radint_fullq ⟨1, 1, fun _ _ => (true, 1)⟩ none none (fun _ _ => 1/2) (fun _ _ => 1)
          (some [1, 0]) .gauss .gauss).isSome = true ∧
      ¬ List.Chain' (· ≤ ·) ([1, 0] : List ℚ) := by
  constructor
  · simp [radint_fullq]
  · intro h
    rcases List.chain'_cons.mp h with ⟨h01, _⟩
    norm_num at h01

/-- C4 (amended): `radint_fullq` validates only the shapes of the intensity,
error and mask arrays; the supplied edge list is never checked for ordering —
with matching shapes and any (also non-ascending) edge list the call returns
a result, and with at least one edge the full accumulation pass runs over all
`rows × cols` pixels. -/
theorem radint_fullq_shape_check_only (data : DMat (Bool × ℚ))
    (dataerr : Option (DMat (Bool × ℚ))) (mask : Option (DMat ℕ))
    (rmat drmat : ℕ → ℕ → ℚ) (qlist : List ℚ) (ep aep : ErrorPropagation) :
    ((radint_fullq data dataerr mask rmat drmat (some qlist) ep aep).isSome ↔
      (data.rows = (dataerr.getD ⟨data.rows, data.cols, fun _ _ => (true, 1)⟩).rows ∧
        data.cols = (dataerr.getD ⟨data.rows, data.cols, fun _ _ => (true, 1)⟩).cols ∧
        data.rows = (mask.getD ⟨data.rows, data.cols, fun _ _ => 1⟩).rows ∧
        data.cols = (mask.getD ⟨data.rows, data.cols, fun _ _ => 1⟩).cols)) ∧
    (∀ st qq, radint_fullq data dataerr mask rmat drmat (some qlist) ep aep
          = some (st, qq) →
        qq = qlist ∧ (1 ≤ qlist.length → totalOf qlist st = data.rows * data.cols)) := by
  constructor
  · unfold radint_fullq
    dsimp only
    by_cases hsh : data.rows = (dataerr.getD ⟨data.rows, data.cols, fun _ _ => (true, 1)⟩).rows ∧
        data.cols = (dataerr.getD ⟨data.rows, data.cols, fun _ _ => (true, 1)⟩).cols ∧
        data.rows = (mask.getD ⟨data.rows, data.cols, fun _ _ => 1⟩).rows ∧
        data.cols = (mask.getD ⟨data.rows, data.cols, fun _ _ => 1⟩).cols
    · rw [if_pos hsh]
      exact ⟨fun _ => hsh, fun _ => rfl⟩
    · rw [if_neg hsh]
      exact ⟨fun hx => absurd hx (by simp), fun hx => absurd hx hsh⟩
  · intro st qq h
    unfold radint_fullq at h
    dsimp only at h
    split_ifs at h with hsh
    · rw [Option.some_inj] at h
      have hst := congrArg Prod.fst h
      have hqq := congrArg Prod.snd h
      dsimp at hst hqq
      subst hst
      subst hqq
      refine ⟨rfl, fun hq1 => ?_⟩
      rw [totalOf_radintAccum ep aep qlist _ hq1]
      simp [pixelsOf, idxList]

/-- C4 witness: a shape-consistent call with a non-ascending edge list
returns a result. -/
theorem radint_fullq_shape_check_only_witness :
    (radint_fullq ⟨1, 1, fun _ _ => (true, 1)⟩ none none (fun _ _ => 1/2) (fun _ _ => 1)
        (some [1, 0]) .gauss .gauss).isSome = true :=
  ((radint_fullq_shape_check_only ⟨1, 1, fun _ _ => (true, 1)⟩ none none (fun _ _ => 1/2)
      (fun _ _ => 1) [1, 0] .gauss .gauss).1).mpr ⟨rfl, rfl, rfl, rfl⟩

/-- The truncated point count of the automatic abscissa equals the floor of
`√(M² + N²)/2` over the reals. -/
theorem numPoints_eq_floor (M N : ℕ) :
    numPoints M N = ⌊Real.sqrt ((M * M + N * N : ℕ) : ℝ) / 2⌋₊ := by
  rw [show ((2 : ℝ)) = ((2 : ℕ) : ℝ) by norm_num, Nat.floor_div_nat]
  unfold numPoints
  congr 1
  symm
  rw [Nat.floor_eq_iff (Real.sqrt_nonneg _)]
  constructor
  · rw [show ((Nat.sqrt (M * M + N * N) : ℕ) : ℝ)
        = Real.sqrt (((Nat.sqrt (M * M + N * N) : ℕ) : ℝ) ^ 2) from
        (Real.sqrt_sq (by positivity)).symm]
    apply Real.sqrt_le_sqrt
    rw [sq]
    exact_mod_cast Nat.sqrt_le (M * M + N * N)
  · rw [show ((Nat.sqrt (M * M + N * N) : ℕ) : ℝ) + 1
        = Real.sqrt ((((Nat.sqrt (M * M + N * N) : ℕ) : ℝ) + 1) ^ 2) from
        (Real.sqrt_sq (by positivity)).symm]
    apply Real.sqrt_lt_sqrt (by positivity)
    rw [sq]
    push_cast
    exact_mod_cast Nat.lt_succ_sqrt (M * M + N * N)

/-- Membership in the row-major index list is exactly in-bounds indexing. -/
theorem mem_idxList (M N : ℕ) (p : ℕ × ℕ) : p ∈ idxList M N ↔ p.1 < M ∧ p.2 < N := by
  rcases Nat.eq_zero_or_pos N with rfl | hN
  · simp [idxList]
  unfold idxList
  simp only [List.mem_map, List.mem_range]
  constructor
  · rintro ⟨k, hk, rfl⟩
    exact ⟨(Nat.div_lt_iff_lt_mul hN).mpr (by omega), Nat.mod_lt _ hN⟩
  · rintro ⟨h1, h2⟩
    refine ⟨p.2 + p.1 * N, ?_, ?_⟩
    · have hstep : p.2 + p.1 * N < (p.1 + 1) * N := by
        have : (p.1 + 1) * N = p.1 * N + N := by ring
        omega
      have hle : (p.1 + 1) * N ≤ M * N := Nat.mul_le_mul_right N h1
      omega
    · have hdiv : (p.2 + p.1 * N) / N = p.1 := by
        rw [Nat.add_mul_div_right _ _ hN, Nat.div_eq_of_lt h2]
        omega
      have hmod : (p.2 + p.1 * N) % N = p.2 := by
        rw [Nat.add_mul_mod_self_right]
        exact Nat.mod_eq_of_lt h2
      rw [hdiv, hmod]

/-- The `qmin`/`qmax` fold: the result bounds every unmasked pixel of the
scanned list, never moves past the initial sentinels in the wrong direction,
and each component is the initial sentinel or an attained pixel value. -/
theorem absMinMaxFold_spec (mask : ℕ → ℕ → ℕ) (absc : ℕ → ℕ → ℚ) :
    ∀ (l : List (ℕ × ℕ)) (mm : ℚ × ℚ),
      ((l.foldl
          (fun mm p =>
            if mask p.1 p.2 = 0 then mm
            else
              ((if absc p.1 p.2 < mm.1 then absc p.1 p.2 else mm.1),
                (if mm.2 < absc p.1 p.2 then absc p.1 p.2 else mm.2))) mm).1 ≤ mm.1 ∧
        mm.2 ≤ (l.foldl
          (fun mm p =>
            if mask p.1 p.2 = 0 then mm
            else
              ((if absc p.1 p.2 < mm.1 then absc p.1 p.2 else mm.1),
                (if mm.2 < absc p.1 p.2 then absc p.1 p.2 else mm.2))) mm).2) ∧
      (∀ p ∈ l, mask p.1 p.2 ≠ 0 →
        (l.foldl
          (fun mm p =>
            if mask p.1 p.2 = 0 then mm
            else
              ((if absc p.1 p.2 < mm.1 then absc p.1 p.2 else mm.1),
                (if mm.2 < absc p.1 p.2 then absc p.1 p.2 else mm.2))) mm).1 ≤ absc p.1 p.2 ∧
        absc p.1 p.2 ≤ (l.foldl
          (fun mm p =>
            if mask p.1 p.2 = 0 then mm
            else
              ((if absc p.1 p.2 < mm.1 then absc p.1 p.2 else mm.1),
                (if mm.2 < absc p.1 p.2 then absc p.1 p.2 else mm.2))) mm).2) ∧
      (((l.foldl
          (fun mm p =>
            if mask p.1 p.2 = 0 then mm
            else
              ((if absc p.1 p.2 < mm.1 then absc p.1 p.2 else mm.1),
                (if mm.2 < absc p.1 p.2 then absc p.1 p.2 else mm.2))) mm).1 = mm.1 ∨
        ∃ p ∈ l, mask p.1 p.2 ≠ 0 ∧
          (l.foldl
            (fun mm p =>
              if mask p.1 p.2 = 0 then mm
              else
                ((if absc p.1 p.2 < mm.1 then absc p.1 p.2 else mm.1),
                  (if mm.2 < absc p.1 p.2 then absc p.1 p.2 else mm.2))) mm).1
            = absc p.1 p.2) ∧
      ((l.foldl
          (fun mm p =>
            if mask p.1 p.2 = 0 then mm
            else
              ((if absc p.1 p.2 < mm.1 then absc p.1 p.2 else mm.1),
                (if mm.2 < absc p.1 p.2 then absc p.1 p.2 else mm.2))) mm).2 = mm.2 ∨
        ∃ p ∈ l, mask p.1 p.2 ≠ 0 ∧
          (l.foldl
            (fun mm p =>
              if mask p.1 p.2 = 0 then mm
              else
                ((if absc p.1 p.2 < mm.1 then absc p.1 p.2 else mm.1),
                  (if mm.2 < absc p.1 p.2 then absc p.1 p.2 else mm.2))) mm).2
            = absc p.1 p.2)) := by
  intro l
  induction l with
  | nil => intro mm; simp
  | cons p0 t ih =>
    intro mm
    rw [List.foldl_cons]
    set mm1 := (if mask p0.1 p0.2 = 0 then mm
      else
        ((if absc p0.1 p0.2 < mm.1 then absc p0.1 p0.2 else mm.1),
          (if mm.2 < absc p0.1 p0.2 then absc p0.1 p0.2 else mm.2))) with hmm1
    obtain ⟨⟨ihA1, ihA2⟩, ihB, ihC1, ihC2⟩ := ih mm1
    have hmm1le : mm1.1 ≤ mm.1 ∧ mm.2 ≤ mm1.2 := by
      rw [hmm1]
      by_cases h1 : mask p0.1 p0.2 = 0
      · rw [if_pos h1]
        exact ⟨le_refl _, le_refl _⟩
      · rw [if_neg h1]
        constructor
        · dsimp only
          split_ifs with h2
          · exact le_of_lt h2
          · exact le_refl _
        · dsimp only
          split_ifs with h2
          · exact le_of_lt h2
          · exact le_refl _
    have hmm1cases : (mm1.1 = mm.1 ∧ mm1.2 = mm.2) ∨
        (mask p0.1 p0.2 ≠ 0 ∧ (mm1.1 = mm.1 ∨ mm1.1 = absc p0.1 p0.2) ∧
          (mm1.2 = mm.2 ∨ mm1.2 = absc p0.1 p0.2)) := by
      rw [hmm1]
      by_cases h1 : mask p0.1 p0.2 = 0
      · rw [if_pos h1]
        exact Or.inl ⟨rfl, rfl⟩
      · rw [if_neg h1]
        refine Or.inr ⟨h1, ?_, ?_⟩
        · dsimp only
          split_ifs
          · exact Or.inr rfl
          · exact Or.inl rfl
        · dsimp only
          split_ifs
          · exact Or.inr rfl
          · exact Or.inl rfl
    have hp0 : mask p0.1 p0.2 ≠ 0 → mm1.1 ≤ absc p0.1 p0.2 ∧ absc p0.1 p0.2 ≤ mm1.2 := by
      intro hm
      rw [hmm1, if_neg hm]
      constructor
      · dsimp only
        split_ifs with h2
        · exact le_refl _
        · exact le_of_not_lt h2
      · dsimp only
        split_ifs with h2
        · exact le_refl _
        · exact le_of_not_lt h2
    refine ⟨⟨le_trans ihA1 hmm1le.1, le_trans hmm1le.2 ihA2⟩, ?_, ?_, ?_⟩
    · intro p hp hm
      rcases List.mem_cons.mp hp with rfl | hpt
      · exact ⟨le_trans ihA1 (hp0 hm).1, le_trans (hp0 hm).2 ihA2⟩
      · exact ihB p hpt hm
    · rcases ihC1 with hC | ⟨p, hp, hm, hval⟩
      · rw [hC]
        rcases hmm1cases with ⟨h1, _⟩ | ⟨hm0, h1 | h1, _⟩
        · exact Or.inl h1
        · exact Or.inl h1
        · exact Or.inr ⟨p0, List.mem_cons_self p0 t, hm0, h1⟩
      · exact Or.inr ⟨p, List.mem_cons_of_mem p0 hp, hm, hval⟩
    · rcases ihC2 with hC | ⟨p, hp, hm, hval⟩
      · rw [hC]
        rcases hmm1cases with ⟨_, h2⟩ | ⟨hm0, _, h2 | h2⟩
        · exact Or.inl h2
        · exact Or.inl h2
        · exact Or.inr ⟨p0, List.mem_cons_self p0 t, hm0, h2⟩
      · exact Or.inr ⟨p, List.mem_cons_of_mem p0 hp, hm, hval⟩

/-- numpy linspace with at least two points: correct length, endpoints `a`
and `b`, and a constant consecutive gap of `(b - a)/(n - 1)`. -/
theorem linspace_spec {α : Type _} [LinearOrderedField α] (a b : α) (n : ℕ) (hn : 2 ≤ n) :
    (linspace a b n).length = n ∧ (linspace a b n).getD 0 0 = a ∧
      (linspace a b n).getD (n - 1) 0 = b ∧
      ∀ k, k + 1 < n →
        (linspace a b n).getD (k + 1) 0 - (linspace a b n).getD k 0 = (b - a) / (n - 1) := by
  have hn0 : n ≠ 0 := by omega
  have hn1 : n ≠ 1 := by omega
  have hcast : ((n : α) - 1) ≠ 0 := by
    have h2 : (2 : α) ≤ (n : α) := by exact_mod_cast hn
    intro hzero
    have : (n : α) = 1 := by linarith
    linarith
  have hgetD : ∀ k, k < n → (linspace a b n).getD k 0 = a + (k : α) * (b - a) / ((n : α) - 1) := by
    intro k hk
    unfold linspace
    rw [if_neg hn0, if_neg hn1, List.getD_eq_getElem?_getD, List.getElem?_map,
      List.getElem?_range hk]
    rfl
  refine ⟨?_, ?_, ?_, ?_⟩
  · unfold linspace
    rw [if_neg hn0, if_neg hn1, List.length_map, List.length_range]
  · rw [hgetD 0 (by omega)]
    simp
  · rw [hgetD (n - 1) (by omega)]
    have hc : ((n - 1 : ℕ) : α) = (n : α) - 1 := by
      have : (1 : ℕ) ≤ n := by omega
      push_cast [this]
      ring
    rw [hc]
    field_simp
  · intro k hk
    rw [hgetD (k + 1) hk, hgetD k (by omega)]
    push_cast
    field_simp
    ring

/-- C5 counterexample: for a 3×4 mask the automatic abscissa has
`int(sqrt(3² + 4²)/2) = int(2.5) = 2` points (numpy truncates the float point
count), not the claimed `⌈sqrt(3² + 4²)/2⌉ = 3`. -/
theorem autoabscissa_count_claim_false :
    (autoabscissaLin 3 4 (fun _ _ => 1) (fun i j => (i : ℚ) + j)).length = 2 ∧
      ⌈Real.sqrt ((3 * 3 + 4 * 4 : ℕ) : ℝ) / 2⌉₊ = 3 ∧ (2 : ℕ) ≠ 3 := by
  have hsqrt : Nat.sqrt (3 * 3 + 4 * 4) = 5 := by
    rw [show (3 * 3 + 4 * 4 : ℕ) = 5 * 5 by norm_num]
    exact Nat.sqrt_eq 5
  have hnp : numPoints 3 4 = 2 := by
    unfold numPoints
    rw [hsqrt]
  refine ⟨?_, ?_, by decide⟩
  · unfold autoabscissaLin
    rw [hnp]
    exact (linspace_spec _ _ 2 (by omega)).1
  · rw [show ((3 * 3 + 4 * 4 : ℕ) : ℝ) = (5 : ℝ) ^ 2 by norm_num,
      Real.sqrt_sq (by norm_num)]
    rw [Nat.ceil_eq_iff (by norm_num)]
    norm_num

/-- C5 (amended): with no explicit bin edges, the automatic range estimator
returns exactly `⌊√(Rows² + Cols²)/2⌋` points (numpy truncates the
non-integer count): the scanned minimum and maximum bound every unmasked
pixel's abscissa and are both attained, and the linear branch spans
`[min, max]` with equal consecutive gaps (the log10 branch has the same
length). -/
theorem autoabscissa_spec (M N : ℕ) (mask : ℕ → ℕ → ℕ) (absc : ℕ → ℕ → ℚ)
    (hex : ∃ i j, i < M ∧ j < N ∧ mask i j ≠ 0)
    (hvals : ∀ i j, i < M → j < N → mask i j ≠ 0 →
      -10 < absc i j ∧ absc i j < 10 ^ 20) :
    (autoabscissaLin M N mask absc).length = numPoints M N ∧
    (autoabscissaLog M N mask absc).length = numPoints M N ∧
    numPoints M N = ⌊Real.sqrt ((M * M + N * N : ℕ) : ℝ) / 2⌋₊ ∧
    (∀ i j, i < M → j < N → mask i j ≠ 0 →
      (absMinMax M N mask absc).1 ≤ absc i j ∧ absc i j ≤ (absMinMax M N mask absc).2) ∧
    (∃ i j, i < M ∧ j < N ∧ mask i j ≠ 0 ∧ absc i j = (absMinMax M N mask absc).1) ∧
    (∃ i j, i < M ∧ j < N ∧ mask i j ≠ 0 ∧ absc i j = (absMinMax M N mask absc).2) ∧
    (2 ≤ numPoints M N →
      (autoabscissaLin M N mask absc).getD 0 0 = (absMinMax M N mask absc).1 ∧
      (autoabscissaLin M N mask absc).getD (numPoints M N - 1) 0
        = (absMinMax M N mask absc).2 ∧
      ∀ k, k + 1 < numPoints M N →
        (autoabscissaLin M N mask absc).getD (k + 1) 0
            - (autoabscissaLin M N mask absc).getD k 0
          = ((absMinMax M N mask absc).2 - (absMinMax M N mask absc).1)
              / (numPoints M N - 1)) := by
  obtain ⟨i0, j0, hi0, hj0, hm0⟩ := hex
  obtain ⟨⟨hA1, hA2⟩, hB, hC1, hC2⟩ := absMinMaxFold_spec mask absc (idxList M N) (10 ^ 20, -10)
  have hBmm : ∀ i j, i < M → j < N → mask i j ≠ 0 →
      (absMinMax M N mask absc).1 ≤ absc i j ∧ absc i j ≤ (absMinMax M N mask absc).2 := by
    intro i j hi hj hm
    exact hB (i, j) ((mem_idxList M N (i, j)).mpr ⟨hi, hj⟩) hm
  have hlen : ∀ n : ℕ, (linspace (absMinMax M N mask absc).1 (absMinMax M N mask absc).2 n).length = n := by
    intro n
    unfold linspace
    rcases Nat.eq_zero_or_pos n with rfl | hn
    · simp
    rcases Nat.lt_or_ge n 2 with hn2 | hn2
    · have : n = 1 := by omega
      subst this
      simp
    · rw [if_neg (by omega), if_neg (by omega), List.length_map, List.length_range]
  refine ⟨?_, ?_, numPoints_eq_floor M N, hBmm, ?_, ?_, ?_⟩
  · unfold autoabscissaLin
    exact hlen _
  · unfold autoabscissaLog logspace
    rw [List.length_map]
    have : ∀ (x y : ℝ) (n : ℕ), (linspace x y n).length = n := by
      intro x y n
      unfold linspace
      rcases Nat.eq_zero_or_pos n with rfl | hn
      · simp
      rcases Nat.lt_or_ge n 2 with hn2 | hn2
      · have : n = 1 := by omega
        subst this
        simp
      · rw [if_neg (by omega), if_neg (by omega), List.length_map, List.length_range]
    exact this _ _ _
  · rcases hC1 with hC | ⟨p, hp, hm, hval⟩
    · exfalso
      have hble := (hB (i0, j0) ((mem_idxList M N (i0, j0)).mpr ⟨hi0, hj0⟩) hm0).1
      rw [hC] at hble
      have hble2 : (10 ^ 20 : ℚ) ≤ absc i0 j0 := hble
      have := (hvals i0 j0 hi0 hj0 hm0).2
      linarith
    · obtain ⟨hpM, hpN⟩ := (mem_idxList M N p).mp hp
      exact ⟨p.1, p.2, hpM, hpN, hm, hval.symm⟩
  · rcases hC2 with hC | ⟨p, hp, hm, hval⟩
    · exfalso
      have hble := (hB (i0, j0) ((mem_idxList M N (i0, j0)).mpr ⟨hi0, hj0⟩) hm0).2
      rw [hC] at hble
      have hble2 : absc i0 j0 ≤ (-10 : ℚ) := hble
      have := (hvals i0 j0 hi0 hj0 hm0).1
      linarith
    · obtain ⟨hpM, hpN⟩ := (mem_idxList M N p).mp hp
      exact ⟨p.1, p.2, hpM, hpN, hm, hval.symm⟩
  · intro hn2
    obtain ⟨_, hhead, hlast, hgap⟩ :=
      linspace_spec (absMinMax M N mask absc).1 (absMinMax M N mask absc).2
        (numPoints M N) hn2
    exact ⟨hhead, hlast, hgap⟩

/-- C5 witness: the point-count identity on a concrete 3×4 all-unmasked
geometry. -/
theorem autoabscissa_spec_witness :
    (autoabscissaLin 3 4 (fun _ _ => 1) (fun i j => (i : ℚ) + j)).length = numPoints 3 4 :=
  (autoabscissa_spec 3 4 (fun _ _ => 1) (fun i j => (i : ℚ) + j)
    ⟨0, 0, by omega, by omega, by simp⟩
    (fun i j hi hj _ => by
      dsimp only
      constructor
      · have h0 : (0 : ℚ) ≤ (i : ℚ) + j := by positivity
        linarith
      · have hic : (i : ℚ) ≤ 2 := by exact_mod_cast Nat.le_of_lt_succ hi
        have hjc : (j : ℚ) ≤ 3 := by exact_mod_cast Nat.le_of_lt_succ hj
        calc (i : ℚ) + j ≤ 2 + 3 := by linarith
        _ < 10 ^ 20 := by norm_num)).1

/-- C3: for positive wavelength, distance, pixel size and pixel radius, the
polar-remapping inverse `q → pixel` exactly undoes the forward
`pixel → q` conversion over the reals. -/
theorem q_pixel_roundtrip (wavelength distance pixelsize ρ : ℝ)
    (hw : 0 < wavelength) (hd : 0 < distance) (hp : 0 < pixelsize) (hρ : 0 < ρ) :
    q_to_pixel wavelength distance pixelsize
      (pixel_to_q wavelength distance pixelsize ρ) = ρ := by
  unfold pixel_to_q q_to_pixel
  have hpi := Real.pi_pos
  set θ := Real.arctan (ρ * pixelsize / distance) with hθ
  have harg : 4 * Real.pi * Real.sin (0.5 * θ) / wavelength * (wavelength / 4 / Real.pi)
      = Real.sin (0.5 * θ) := by
    field_simp
  rw [harg]
  have hθb1 : -(Real.pi / 2) < θ := Real.neg_pi_div_two_lt_arctan _
  have hθb2 : θ < Real.pi / 2 := Real.arctan_lt_pi_div_two _
  have hasin : Real.arcsin (Real.sin (0.5 * θ)) = 0.5 * θ := by
    apply Real.arcsin_sin
    · nlinarith
    · nlinarith
  rw [hasin]
  have h2 : 2 * (0.5 * θ) = θ := by ring
  rw [h2, hθ, Real.tan_arctan]
  field_simp
  ring

/-- C3 witness: the round trip at the representative geometry
λ = 0.154 nm, distance = 1000 mm, pixel size = 0.172 mm, ρ = 250 pixels. -/
theorem q_pixel_roundtrip_witness :
    q_to_pixel 0.154 1000 0.172 (pixel_to_q 0.154 1000 0.172 250) = 250 :=
  q_pixel_roundtrip 0.154 1000 0.172 250 (by norm_num) (by norm_num) (by norm_num)
    (by norm_num)
